import Mathlib

/-!
Verification model of the EOS orchestration services
(`eos/orchestration/services/experiment_service.py` and
`eos/orchestration/services/loading_service.py`).

The Python services are shallowly embedded as pure Lean functions:

* Python `dict`s (insertion ordered, unique keys) become association lists
  `List (String × _)`; `del d[k]` becomes `delKey` (raising `keyError` when
  the key is absent, as in Python), `d.pop(k, None)` becomes `eraseKey`.
* `async` control flow is sequentialized: the services suspend only at I/O
  boundaries, and the registry/queue manipulations between suspensions are
  modelled as atomic steps.  Effects that matter to the specification
  (executor creation/start, usage checks, resource-store mutations) are
  recorded in explicit event traces.
* Exceptions become `Option EosError` results carried alongside the state
  reached at the point the exception escapes.
-/

namespace Eos

/-- Error taxonomy of the orchestration core (§7 of the spec): unknown type,
resource in use, execution error, configuration error, plugin reload error,
plus Python's `KeyError` for a deletion of an absent dict key. -/
inductive EosError where
  | unknownType
  | executionError
  | resourceInUse
  | configurationError
  | pluginReloadError
  | keyError (k : String)
deriving DecidableEq

/-! ### Python dict primitives (insertion-ordered association lists) -/

/-- `k in d` for a Python dict modelled as an association list. -/
def containsKey (reg : List (String × α)) (k : String) : Bool :=
  reg.any (fun p => p.1 == k)

/-- `d[k]` lookup (first binding). -/
def lookupKey (reg : List (String × α)) (k : String) : Option α :=
  match reg.find? (fun p => p.1 == k) with
  | none => none
  | some p => some p.2

/-- `d.pop(k, None)`: remove the binding of `k` if present (no error). -/
def eraseKey (reg : List (String × α)) (k : String) : List (String × α) :=
  match reg with
  | [] => []
  | p :: rest => if p.1 == k then rest else p :: eraseKey rest k

/-- A registry is well-formed when its keys are pairwise distinct — the dict
invariant (§3: at most one live Executor per id). -/
abbrev WF (reg : List (String × α)) : Prop :=
  (reg.map Prod.fst).Nodup

/-! ### Experiment scheduling core data model -/

/-- `ExperimentDefinition`: immutable submission record (id, type, priority). -/
structure ExperimentDefinition where
  id : String
  type : String
  priority : Int
deriving DecidableEq

/-- Outcome of one `progress_experiment` call inside a tick: returns `True`
(completed), returns `False` (still in progress), or raises
`EosExperimentExecutionError`. -/
inductive ProgressOutcome where
  | completes
  | continues
  | raisesError
deriving DecidableEq

/-- An `ExperimentExecutor` as visible to the service: its definition plus the
behaviour of its `start_experiment` / `progress_experiment` /
`cancel_experiment` calls (the executor's internals are external to this
core, so their outcomes are data of the model). -/
structure ExperimentExecutor where
  experiment_definition : ExperimentDefinition
  startOk : Bool
  progress : ProgressOutcome
  cancelOk : Bool
deriving DecidableEq

/-- The Submission Registry `self._submitted_experiments : dict[str, ExperimentExecutor]`. -/
abbrev Registry := List (String × ExperimentExecutor)

/-- Observable effects of `submit_experiment`. -/
inductive SubmitEvent where
  | validateType (t : String)
  | createExecutor (id : String)
  | startExperiment (id : String)
  | register (id : String)
deriving DecidableEq

/-- Result of a `submit_experiment` call: its event trace, the exception that
escaped (if any) and the registry afterwards. -/
structure SubmitResult where
  events : List SubmitEvent
  error : Option EosError
  registry : Registry
deriving DecidableEq

/-- `ExperimentService.submit_experiment`: validate the experiment type
(`_validate_experiment_type`, raising `EosExperimentDoesNotExistError` when
the type is not in `configuration_manager.experiments`); then, under the
submission lock: return silently when the id is already registered; otherwise
create an executor via the factory, start it, and register it — on
`EosExperimentExecutionError` during start, `pop(experiment_id, None)` and
re-raise. -/
def submitExperiment (cfgTypes : List String)
    (factory : ExperimentDefinition → ExperimentExecutor)
    (reg : Registry) (d : ExperimentDefinition) : SubmitResult :=
  if !(cfgTypes.contains d.type) then
    { events := [.validateType d.type], error := some .unknownType, registry := reg }
  else if containsKey reg d.id then
    { events := [.validateType d.type], error := none, registry := reg }
  else
    let ex := factory d
    if ex.startOk then
      { events := [.validateType d.type, .createExecutor d.id,
                   .startExperiment d.id, .register d.id],
        error := none,
        registry := reg ++ [(d.id, ex)] }
    else
      { events := [.validateType d.type, .createExecutor d.id, .startExperiment d.id],
        error := some .executionError,
        registry := eraseKey reg d.id }

/-- Priority of a registry entry. -/
def prio (p : String × ExperimentExecutor) : Int :=
  p.2.experiment_definition.priority

/-- Insert an entry into a descending-sorted list, after every entry of
strictly higher priority and before entries of lower-or-equal priority, so
that folding over the registry in insertion order yields a stable descending
sort — the behaviour of `sorted(items, key=priority, reverse=True)`. -/
def insertDesc (a : String × ExperimentExecutor) :
    List (String × ExperimentExecutor) → List (String × ExperimentExecutor)
  | [] => [a]
  | b :: l => if prio a < prio b then b :: insertDesc a l else a :: b :: l

/-- `ExperimentService._get_sorted_experiments`: snapshot of the registry
items sorted by priority descending, ties in insertion order (Python's
`sorted` is stable). -/
def sortedExperiments (reg : Registry) : Registry :=
  List.foldr insertDesc [] reg

/-- Observable effects of a tick (`process_experiments`). -/
inductive TickEvent where
  | progress (id : String)
  | remove (id : String)
deriving DecidableEq

/-- The per-experiment loop body of `process_experiments`: progress each
snapshot entry in order, collecting completed ids (progress returned true)
and failed ids (progress raised `EosExperimentExecutionError`, which is
caught and isolated). Returns (progress events, completed ids, failed ids). -/
def tickLoop : List (String × ExperimentExecutor) →
    List TickEvent × List String × List String
  | [] => ([], [], [])
  | (i, ex) :: rest =>
    let r := tickLoop rest
    match ex.progress with
    | .completes => (.progress i :: r.1, i :: r.2.1, r.2.2)
    | .continues => (.progress i :: r.1, r.2.1, r.2.2)
    | .raisesError => (.progress i :: r.1, r.2.1, i :: r.2.2)

/-- Sequential `del d[id]` over a list of ids (the cleanup loops of
`process_experiments` and `process_experiment_cancellations`): Python's `del`
raises `KeyError` on an absent key, stopping the loop there. Returns (ids
actually removed, error if any, registry afterwards). -/
def deleteAll : Registry → List String → List String × Option EosError × Registry
  | reg, [] => ([], none, reg)
  | reg, i :: rest =>
    if containsKey reg i then
      let r := deleteAll (eraseKey reg i) rest
      (i :: r.1, r.2.1, r.2.2)
    else ([], some (.keyError i), reg)

/-- Result of a tick. -/
structure TickResult where
  events : List TickEvent
  error : Option EosError
  registry : Registry
deriving DecidableEq

/-- `ExperimentService.process_experiments`: return immediately when the
registry is empty; otherwise progress the sorted snapshot sequentially,
collecting completed and failed ids, and only after the full pass delete the
collected ids from the registry. -/
def processExperiments (reg : Registry) : TickResult :=
  if reg.isEmpty then { events := [], error := none, registry := reg }
  else
    let r := tickLoop (sortedExperiments reg)
    let d := deleteAll reg (r.2.1 ++ r.2.2)
    { events := r.1 ++ d.1.map .remove, error := d.2.1, registry := d.2.2 }

/-- `ExperimentService.cancel_experiment`: enqueue the id on the cancellation
queue whenever it is registered (unconditionally — no deduplication against
ids already queued); a no-op otherwise. The queue is modelled as the list of
queued ids in FIFO order. -/
def cancelExperiment (reg : Registry) (queue : List String) (id : String) :
    List String :=
  if containsKey reg id then queue ++ [id] else queue

/-- Outcome of the `cancel(exp_id)` closure inside
`process_experiment_cancellations` for one id: `self._submitted_experiments[exp_id]`
raises `KeyError` when the id is not registered, and `cancel_experiment` may
raise an execution error. -/
def cancelOutcome (reg : Registry) (i : String) : Option EosError :=
  match lookupKey reg i with
  | none => some (.keyError i)
  | some ex => if ex.cancelOk then none else some .executionError

/-- Result of `process_experiment_cancellations`: drained ids, escaped
exception (if any), registry afterwards, and queue afterwards. -/
structure CancelResult where
  drained : List String
  error : Option EosError
  registry : Registry
  queue : List String
deriving DecidableEq

/-- `ExperimentService.process_experiment_cancellations`: drain everything
currently queued (the drain loop never suspends, since `asyncio.Queue.get`
on a non-empty queue returns immediately, so no id can be interleaved into
the snapshot); return immediately if nothing was drained. Then fan out the
`cancel` closures and `asyncio.gather` them: if any raises, the exception
propagates before any registry mutation; otherwise delete every drained id
from the registry. `arrivals` are the ids enqueued after the drain loop
finished (during the awaited cancellations or later); they form the queue
contents when the call returns. -/
def processExperimentCancellations (reg : Registry)
    (queue arrivals : List String) : CancelResult :=
  let ids := queue
  if ids.isEmpty then
    { drained := [], error := none, registry := reg, queue := arrivals }
  else
    match (ids.filterMap (cancelOutcome reg)).head? with
    | some e =>
      { drained := ids, error := some e, registry := reg, queue := arrivals }
    | none =>
      let d := deleteAll reg ids
      { drained := ids, error := d.2.1, registry := d.2.2, queue := arrivals }

/-! ### Resource lifecycle guard data model (`loading_service.py`) -/

/-- Persisted experiment statuses. -/
inductive ExperimentStatus where
  | created
  | running
  | completed
  | failed
  | cancelled
deriving DecidableEq

/-- Persisted task statuses. -/
inductive TaskStatus where
  | created
  | running
  | completed
  | failed
deriving DecidableEq

/-- A persisted experiment row as seen by the usage predicates. -/
structure Experiment where
  id : String
  type : String
  status : ExperimentStatus
deriving DecidableEq

/-- A device reference held by a task: `(lab, id)`. -/
structure TaskDevice where
  lab : String
  id : String
deriving DecidableEq

/-- A persisted task row as seen by the usage predicates. `experiment_id` is
`none` for a Python `None`; the sentinel `"on_demand"` (or an empty string,
which is falsy in Python) marks a standalone task. -/
structure Task where
  id : String
  type : String
  status : TaskStatus
  experiment_id : Option String
  devices : List TaskDevice
deriving DecidableEq

/-- The persistence-backed rows the usage predicates query through the
Execution Managers. -/
structure DbEnv where
  experiments : List Experiment
  tasks : List Task

/-- The experiment configurations currently held by the configuration
manager: experiment type to the labs it depends on
(`configuration_manager.experiments[t].labs`). -/
abbrev ExpConfigs := List (String × List String)

/-- `configuration_manager.experiments[t].labs` (the source indexes the dict;
the claims only evaluate this where the type is present). -/
def labsOfType (cfg : ExpConfigs) (t : String) : List String :=
  (cfg.lookup t).getD []

/-- `task.experiment_id and task.experiment_id != "on_demand"` is the
condition to skip a non-standalone task; a task is standalone when its
experiment id is falsy (`None` or the empty string) or the `"on_demand"`
sentinel. -/
def isStandalone (t : Task) : Bool :=
  match t.experiment_id with
  | none => true
  | some e => e == "" || e == "on_demand"

/-- `LoadingService._check_experiments_using_lab`: the RUNNING experiments
whose configured lab set includes the lab. -/
def experimentsUsingLab (cfg : ExpConfigs) (env : DbEnv) (labId : String) :
    List Experiment :=
  (env.experiments.filter (fun e => e.status == .running)).filter
    (fun e => (labsOfType cfg e.type).contains labId)

/-- `LoadingService._check_tasks_using_devices`: active (RUNNING then
CREATED) standalone tasks with some device in the lab and, when a device id
list is given, among those ids. -/
def tasksUsingDevices (env : DbEnv) (labId : String)
    (deviceIds : Option (List String)) : List Task :=
  let active := env.tasks.filter (fun t => t.status == .running)
    ++ env.tasks.filter (fun t => t.status == .created)
  active.filter (fun t =>
    isStandalone t &&
    t.devices.any (fun d =>
      d.lab == labId &&
      (match deviceIds with
       | none => true
       | some ids => ids.contains d.id)))

/-- `LoadingService._check_lab_usage`: raise `EosExperimentTypeInUseError`
(the `ResourceInUse` error of the spec) when some RUNNING experiment uses the
lab, else when some active standalone task uses a device of the lab. -/
def checkLabUsage (cfg : ExpConfigs) (env : DbEnv) (labId : String) :
    Option EosError :=
  if !(experimentsUsingLab cfg env labId).isEmpty then some .resourceInUse
  else if !(tasksUsingDevices env labId none).isEmpty then some .resourceInUse
  else none

/-- Steps of `unload_labs`, each tagged with whether the Reconfiguration Lock
(`self._loading_lock`) is held while the step runs. -/
inductive LockEvent where
  | checkUsage (labId : String) (lockHeld : Bool)
  | configUnload (lockHeld : Bool)
  | devicesUpdate (lockHeld : Bool)
  | containersUpdate (lockHeld : Bool)
deriving DecidableEq

/-- Resource-store / manager state touched by `unload_labs`. Modelled from
the spec: the Resource Store holds the loaded flags of labs, and the
Device/Container Execution Managers hold the labs whose devices and
containers are currently materialized; unloading removes the given labs from
each. -/
structure LabState where
  loadedLabs : List String
  deviceLabs : List String
  containerLabs : List String
deriving DecidableEq

/-- Result of an `unload_labs` call. -/
structure UnloadResult where
  events : List LockEvent
  error : Option EosError
  state : LabState
deriving DecidableEq

/-- The `for lab_id in labs: await self._check_lab_usage(db, lab_id)` loop of
`unload_labs`, which runs before `async with self._loading_lock`, hence with
the lock not held (`lockHeld = false` on every check event); it raises at the
first violating lab. -/
def runChecks (cfg : ExpConfigs) (env : DbEnv) :
    List String → List LockEvent × Option EosError
  | [] => ([], none)
  | l :: rest =>
    match checkLabUsage cfg env l with
    | some e => ([.checkUsage l false], some e)
    | none =>
      let r := runChecks cfg env rest
      (.checkUsage l false :: r.1, r.2)

/-- Remove the given labs from a lab set (the delta pushed by unloading). -/
def removeLabs (ls : List String) (labs : List String) : List String :=
  ls.filter (fun l => !(labs.contains l))

/-- `LoadingService.unload_labs`: run the usage check for every lab (outside
the lock), then, inside the Reconfiguration Lock, unload the labs from the
configuration and push the delta to the device and container managers. On a
usage violation the call re-raises and no state is mutated. -/
def unloadLabs (cfg : ExpConfigs) (env : DbEnv) (st : LabState)
    (labs : List String) : UnloadResult :=
  let c := runChecks cfg env labs
  match c.2 with
  | some e => { events := c.1, error := some e, state := st }
  | none =>
    { events := c.1 ++ [.configUnload true, .devicesUpdate true, .containersUpdate true],
      error := none,
      state :=
        { loadedLabs := removeLabs st.loadedLabs labs,
          deviceLabs := removeLabs st.deviceLabs labs,
          containerLabs := removeLabs st.containerLabs labs } }

/-! ### `reload_labs` (cascading lab reload) -/

/-- Steps of `reload_labs`. -/
inductive ReloadEvent where
  | pluginReload (deviceType : String)
  | checkUsage (labId : String)
  | configUnloadLabs
  | devicesUnload
  | containersUnload
  | configLoadLabs
  | devicesLoad
  | containersLoad
  | configLoadExperiments (types : List String)
deriving DecidableEq

/-- The configuration-manager operations invoked by `reload_labs`, acting on
the experiment-configuration map. Modelled from the spec: the Resource Store
exposes load/unload of named resources; their exact effect on the
configuration state is external to this core, so they are arbitrary
parameters of the model. -/
structure ConfigOps where
  unloadLabsCfg : ExpConfigs → List String → ExpConfigs
  loadLabsCfg : ExpConfigs → List String → ExpConfigs
  loadExperimentsCfg : ExpConfigs → List String → ExpConfigs

/-- `configuration_manager.devices.reload_plugin` over the device types of
one lab: emit an event per successful reload and raise `pluginReloadError`
at the first failure (the failing reload emits no event). -/
def reloadPlugins (pluginOk : String → Bool) :
    List String → List ReloadEvent × Option EosError
  | [] => ([], none)
  | dt :: rest =>
    if pluginOk dt then
      let r := reloadPlugins pluginOk rest
      (.pluginReload dt :: r.1, r.2)
    else ([], some .pluginReloadError)

/-- The first phase of `reload_labs` (before the lock): for each lab, read
its lab config, collect the set of device types
(`set comprehension over lab_config.devices.values()`, hence deduplicated),
and hot-swap each device plugin, failing fast. `pkg` is
`package_manager.read_lab_config` reduced to the device types it yields. -/
def pluginPhase (pkg : String → List String) (pluginOk : String → Bool) :
    List String → List ReloadEvent × Option EosError
  | [] => ([], none)
  | lab :: rest =>
    match (reloadPlugins pluginOk (pkg lab).dedup).2 with
    | some e => ((reloadPlugins pluginOk (pkg lab).dedup).1, some e)
    | none =>
      ((reloadPlugins pluginOk (pkg lab).dedup).1 ++ (pluginPhase pkg pluginOk rest).1,
       (pluginPhase pkg pluginOk rest).2)

/-- `LoadingService._get_experiments_for_labs`: the experiment types whose
configured lab set meets the given labs. -/
def getExperimentsForLabs (cfg : ExpConfigs) (labTypes : List String) :
    List String :=
  (cfg.filter (fun p => labTypes.any (fun l => p.2.contains l))).map Prod.fst

/-- The `checkLabUsage` loop of `reload_labs` (inside the lock). -/
def runChecksR (cfg : ExpConfigs) (env : DbEnv) :
    List String → List ReloadEvent × Option EosError
  | [] => ([], none)
  | l :: rest =>
    match checkLabUsage cfg env l with
    | some e => ([.checkUsage l], some e)
    | none =>
      let r := runChecksR cfg env rest
      (.checkUsage l :: r.1, r.2)

/-- `LoadingService.load_experiments`: return immediately on an empty set,
otherwise load the experiment types through the configuration manager. -/
def loadExperimentsStep (ops : ConfigOps) (cfg : ExpConfigs)
    (deps : List String) : List ReloadEvent × ExpConfigs :=
  if deps.isEmpty then ([], cfg)
  else ([.configLoadExperiments deps], ops.loadExperimentsCfg cfg deps)

/-- Result of a `reload_labs` call. -/
structure ReloadResult where
  events : List ReloadEvent
  error : Option EosError
  experiments : ExpConfigs

/-- `LoadingService.reload_labs`: (1) hot-swap every device plugin referenced
by the labs, failing fast before any other mutation; then, inside the
Reconfiguration Lock: (2) compute the dependent experiment types from the
configuration state before unloading; (3) run the lab usage predicate for
every lab; (4) unload then load the labs (configuration, devices,
containers); (5) reload the captured dependent experiment types. -/
def reloadLabs (ops : ConfigOps) (pkg : String → List String)
    (pluginOk : String → Bool) (env : DbEnv) (cfg : ExpConfigs)
    (labTypes : List String) : ReloadResult :=
  let p := pluginPhase pkg pluginOk labTypes
  match p.2 with
  | some e => { events := p.1, error := some e, experiments := cfg }
  | none =>
    let deps := getExperimentsForLabs cfg labTypes
    let c := runChecksR cfg env labTypes
    match c.2 with
    | some e => { events := p.1 ++ c.1, error := some e, experiments := cfg }
    | none =>
      let cfg1 := ops.unloadLabsCfg cfg labTypes
      let cfg2 := ops.loadLabsCfg cfg1 labTypes
      let l := loadExperimentsStep ops cfg2 deps
      { events := p.1 ++ c.1
          ++ [.configUnloadLabs, .devicesUnload, .containersUnload,
              .configLoadLabs, .devicesLoad, .containersLoad]
          ++ l.1,
        error := none,
        experiments := l.2 }

/-! ### Dictionary lemmas -/

theorem containsKey_of_mem {α : Type} {reg : List (String × α)} {p : String × α}
    (hp : p ∈ reg) : containsKey reg p.1 = true := by
  simp only [containsKey, List.any_eq_true]
  exact ⟨p, hp, by simp⟩

theorem lookupKey_some_contains {α : Type} {reg : List (String × α)} {k : String} {v : α}
    (h : lookupKey reg k = some v) : containsKey reg k = true := by
  unfold lookupKey at h
  cases hf : reg.find? (fun p => p.1 == k) with
  | none => rw [hf] at h; cases h
  | some p =>
    have hm := List.mem_of_find?_eq_some hf
    have hk := List.find?_some hf
    simp only [containsKey, List.any_eq_true]
    exact ⟨p, hm, hk⟩

theorem eraseKey_sublist {α : Type} : ∀ (reg : List (String × α)) (k : String),
    (eraseKey reg k).Sublist reg
  | [], _ => List.Sublist.refl []
  | p :: rest, k => by
    unfold eraseKey
    by_cases h : (p.1 == k) = true
    · simp only [h, if_true]
      exact List.sublist_cons_self p rest
    · simp only [h, if_false]
      exact List.Sublist.cons₂ p (eraseKey_sublist rest k)

theorem WF_eraseKey {α : Type} {reg : List (String × α)} (h : WF reg) (k : String) :
    WF (eraseKey reg k) :=
  List.Nodup.sublist (List.Sublist.map Prod.fst (eraseKey_sublist reg k)) h

theorem eraseKey_of_not_contains {α : Type} :
    ∀ {reg : List (String × α)} {k : String},
    containsKey reg k = false → eraseKey reg k = reg
  | [], _, _ => rfl
  | p :: rest, k, h => by
    simp only [containsKey, List.any_cons, Bool.or_eq_false_iff] at h
    unfold eraseKey
    simp only [h.1, Bool.false_eq_true, if_false]
    rw [eraseKey_of_not_contains h.2]

theorem containsKey_eraseKey_self {α : Type} :
    ∀ {reg : List (String × α)}, WF reg → ∀ k, containsKey (eraseKey reg k) k = false
  | [], _, _ => rfl
  | p :: rest, h, k => by
    rw [WF, List.map_cons, List.nodup_cons] at h
    unfold eraseKey
    by_cases hpk : (p.1 == k) = true
    · simp only [hpk, if_true]
      rw [← Bool.not_eq_true]
      intro hc
      simp only [containsKey, List.any_eq_true] at hc
      obtain ⟨q, hq, hqk⟩ := hc
      rw [beq_iff_eq] at hpk hqk
      exact h.1 (hpk ▸ hqk ▸ List.mem_map_of_mem Prod.fst hq)
    · rw [Bool.not_eq_true] at hpk
      simp only [hpk, Bool.false_eq_true, if_false, containsKey, List.any_cons]
      rw [Bool.false_or]
      exact containsKey_eraseKey_self h.2 k

theorem containsKey_eraseKey_ne {α : Type} {j k : String} (hjk : j ≠ k) :
    ∀ (reg : List (String × α)), containsKey (eraseKey reg k) j = containsKey reg j
  | [] => rfl
  | p :: rest => by
    unfold eraseKey
    by_cases hpk : (p.1 == k) = true
    · simp only [hpk, if_true, containsKey, List.any_cons]
      rw [beq_iff_eq] at hpk
      have hpj : (p.1 == j) = false := by
        rw [Bool.eq_false_iff]
        intro hpj
        rw [beq_iff_eq] at hpj
        exact hjk (by rw [← hpj, hpk])
      rw [hpj, Bool.false_or]
    · rw [Bool.not_eq_true] at hpk
      simp only [hpk, Bool.false_eq_true, if_false, containsKey, List.any_cons]
      have hrec := containsKey_eraseKey_ne hjk rest
      simp only [containsKey] at hrec
      rw [hrec]

theorem eraseKey_eq_filter {α : Type} :
    ∀ {reg : List (String × α)}, WF reg → ∀ k,
    eraseKey reg k = reg.filter (fun p => !(p.1 == k))
  | [], _, _ => rfl
  | p :: rest, h, k => by
    rw [WF, List.map_cons, List.nodup_cons] at h
    unfold eraseKey
    by_cases hpk : (p.1 == k) = true
    · simp only [hpk, if_true, List.filter_cons, Bool.not_true, Bool.false_eq_true, if_false]
      refine (List.filter_eq_self.mpr ?_).symm
      intro q hq
      rw [Bool.not_eq_true', Bool.eq_false_iff]
      intro hqk
      rw [beq_iff_eq] at hpk hqk
      exact h.1 (hpk ▸ hqk ▸ List.mem_map_of_mem Prod.fst hq)
    · rw [Bool.not_eq_true] at hpk
      simp only [hpk, Bool.false_eq_true, if_false, List.filter_cons, Bool.not_false, if_true]
      rw [eraseKey_eq_filter h.2 k]

theorem deleteAll_ok :
    ∀ (ids : List String) {reg : Registry}, WF reg → ids.Nodup →
    (∀ i ∈ ids, containsKey reg i = true) →
    deleteAll reg ids = (ids, none, reg.filter (fun p => !(ids.contains p.1)))
  | [], reg, _, _, _ => by
    simp [deleteAll]
  | i :: rest, reg, hwf, hnd, hmem => by
    rw [List.nodup_cons] at hnd
    unfold deleteAll
    rw [hmem i (List.mem_cons_self i rest)]
    simp only [if_true]
    rw [deleteAll_ok rest (WF_eraseKey hwf i) hnd.2
      (fun j hj => by
        rw [containsKey_eraseKey_ne (fun hji => hnd.1 (by rw [← hji]; exact hj)) reg]
        exact hmem j (List.mem_cons_of_mem i hj))]
    rw [eraseKey_eq_filter hwf i, List.filter_filter]
    have hfun : (fun (p : String × ExperimentExecutor) => !((i :: rest).contains p.1))
        = fun p => !rest.contains p.1 && !(p.1 == i) := by
      funext p
      simp only [List.contains_cons, Bool.not_or]
      rw [Bool.and_comm]
    rw [hfun]

/-! ### Sorting lemmas -/

theorem insertDesc_perm (a : String × ExperimentExecutor) :
    ∀ l, (insertDesc a l).Perm (a :: l)
  | [] => List.Perm.refl _
  | b :: l => by
    unfold insertDesc
    by_cases h : prio a < prio b
    · rw [if_pos h]
      exact ((insertDesc_perm a l).cons b).trans (List.Perm.swap a b l)
    · rw [if_neg h]

theorem sortedExperiments_perm : ∀ reg, (sortedExperiments reg).Perm reg
  | [] => List.Perm.refl _
  | a :: reg =>
    (insertDesc_perm a (sortedExperiments reg)).trans
      ((sortedExperiments_perm reg).cons a)

theorem pairwise_insertDesc {a : String × ExperimentExecutor} :
    ∀ {l}, l.Pairwise (fun x y => prio y ≤ prio x) →
    (insertDesc a l).Pairwise (fun x y => prio y ≤ prio x)
  | [], _ => by simp [insertDesc]
  | b :: l, h => by
    rw [List.pairwise_cons] at h
    unfold insertDesc
    by_cases hab : prio a < prio b
    · rw [if_pos hab, List.pairwise_cons]
      refine ⟨fun y hy => ?_, pairwise_insertDesc h.2⟩
      rcases List.mem_cons.mp ((insertDesc_perm a l).mem_iff.mp hy) with hya | hyl
      · rw [hya]; exact le_of_lt hab
      · exact h.1 y hyl
    · rw [if_neg hab, List.pairwise_cons]
      rw [not_lt] at hab
      refine ⟨fun y hy => ?_, List.pairwise_cons.mpr h⟩
      rcases List.mem_cons.mp hy with hyb | hyl
      · rw [hyb]; exact hab
      · exact le_trans (h.1 y hyl) hab

theorem sortedExperiments_pairwise :
    ∀ reg, (sortedExperiments reg).Pairwise (fun x y => prio y ≤ prio x)
  | [] => List.Pairwise.nil
  | _ :: reg => pairwise_insertDesc (sortedExperiments_pairwise reg)

theorem filter_insertDesc_eq {a : String × ExperimentExecutor} {p : Int}
    (ha : prio a = p) :
    ∀ l, (insertDesc a l).filter (fun x => prio x == p)
      = a :: l.filter (fun x => prio x == p)
  | [] => by simp [insertDesc, List.filter_cons, ha]
  | b :: l => by
    unfold insertDesc
    by_cases hab : prio a < prio b
    · rw [if_pos hab]
      have hbp : (prio b == p) = false := by
        rw [Bool.eq_false_iff]
        intro hbp
        rw [beq_iff_eq] at hbp
        rw [ha, ← hbp] at hab
        exact lt_irrefl _ hab
      simp only [List.filter_cons, hbp, Bool.false_eq_true, if_false]
      exact filter_insertDesc_eq ha l
    · rw [if_neg hab]
      have hap : (prio a == p) = true := by rw [beq_iff_eq]; exact ha
      simp only [List.filter_cons, hap, if_true]

theorem filter_insertDesc_ne {a : String × ExperimentExecutor} {p : Int}
    (ha : ¬ prio a = p) :
    ∀ l, (insertDesc a l).filter (fun x => prio x == p)
      = l.filter (fun x => prio x == p)
  | [] => by
    have hap : (prio a == p) = false := by
      rw [Bool.eq_false_iff]
      intro hap
      exact ha (beq_iff_eq.mp hap)
    simp [insertDesc, List.filter_cons, hap]
  | b :: l => by
    unfold insertDesc
    by_cases hab : prio a < prio b
    · rw [if_pos hab]
      simp only [List.filter_cons, filter_insertDesc_ne ha l]
    · rw [if_neg hab]
      have hap : (prio a == p) = false := by
        rw [Bool.eq_false_iff]
        intro hap
        exact ha (beq_iff_eq.mp hap)
      simp only [List.filter_cons, hap, Bool.false_eq_true, if_false]

theorem sortedExperiments_filter (p : Int) :
    ∀ reg, (sortedExperiments reg).filter (fun x => prio x == p)
      = reg.filter (fun x => prio x == p)
  | [] => rfl
  | a :: reg => by
    show (insertDesc a (sortedExperiments reg)).filter _ = _
    by_cases ha : prio a = p
    · rw [filter_insertDesc_eq ha, sortedExperiments_filter p reg, List.filter_cons]
      have hap : (prio a == p) = true := by rw [beq_iff_eq]; exact ha
      simp only [hap, if_true]
    · rw [filter_insertDesc_ne ha, sortedExperiments_filter p reg, List.filter_cons]
      have hap : (prio a == p) = false := by
        rw [Bool.eq_false_iff]
        intro hap
        exact ha (beq_iff_eq.mp hap)
      simp only [hap, Bool.false_eq_true, if_false]

/-! ### Tick-loop lemmas -/

/-- Recognizer for the completed progress outcome. -/
def isCompletes : ProgressOutcome → Bool
  | .completes => true
  | _ => false

/-- Recognizer for the raising progress outcome. -/
def isRaises : ProgressOutcome → Bool
  | .raisesError => true
  | _ => false

/-- Recognizer for progress events. -/
def isProgressEv : TickEvent → Bool
  | .progress _ => true
  | _ => false

theorem tickLoop_events :
    ∀ l, (tickLoop l).1 = l.map (fun q => TickEvent.progress q.1)
  | [] => rfl
  | (i, ex) :: rest => by
    unfold tickLoop
    cases ex.progress <;> simp [tickLoop_events rest]

theorem tickLoop_completed :
    ∀ l, (tickLoop l).2.1
      = (l.filter (fun q => isCompletes q.2.progress)).map Prod.fst
  | [] => rfl
  | (i, ex) :: rest => by
    unfold tickLoop
    cases hex : ex.progress <;>
      simp [hex, isCompletes, List.filter_cons, tickLoop_completed rest]

theorem tickLoop_failed :
    ∀ l, (tickLoop l).2.2
      = (l.filter (fun q => isRaises q.2.progress)).map Prod.fst
  | [] => rfl
  | (i, ex) :: rest => by
    unfold tickLoop
    cases hex : ex.progress <;>
      simp [hex, isRaises, List.filter_cons, tickLoop_failed rest]

theorem progressEvents_map_progress (l : List (String × ExperimentExecutor)) :
    (l.map (fun q => TickEvent.progress q.1)).filter isProgressEv
      = l.map (fun q => TickEvent.progress q.1) := by
  rw [List.filter_map]
  have h : List.filter (isProgressEv ∘ fun q => TickEvent.progress q.1) l = l :=
    List.filter_eq_self.mpr (fun a _ => rfl)
  rw [h]

theorem progressEvents_map_remove (ids : List String) :
    (ids.map TickEvent.remove).filter isProgressEv = [] := by
  rw [List.filter_map]
  rw [List.filter_eq_nil_iff.mpr (fun a _ h => by simp [isProgressEv, Function.comp] at h),
    List.map_nil]

/-! ### Claim C2 -/

/-- Executor for the priority-5 experiment submitted first. -/
def c2execA : ExperimentExecutor :=
  { experiment_definition := { id := "expA", type := "t", priority := 5 },
    startOk := true, progress := .continues, cancelOk := true }

/-- Executor for the priority-1 experiment submitted second. -/
def c2execB : ExperimentExecutor :=
  { experiment_definition := { id := "expB", type := "t", priority := 1 },
    startOk := true, progress := .continues, cancelOk := true }

/-- Executor for the priority-5 experiment submitted third. -/
def c2execC : ExperimentExecutor :=
  { experiment_definition := { id := "expC", type := "t", priority := 5 },
    startOk := true, progress := .continues, cancelOk := true }

/-- A registry holding three experiments with priorities [5, 1, 5] in
insertion order. -/
def c2reg : Registry := [("expA", c2execA), ("expB", c2execB), ("expC", c2execC)]

/-- Claim C2: a tick takes a snapshot of the registered entries
(`sortedExperiments reg` is a permutation of the registry), sorts it by
priority descending (pairwise non-increasing priorities) with ties broken by
insertion order (the entries at each priority keep their registry order), and
progresses the entries sequentially in that order (the progress events of
`processExperiments` are exactly the sorted snapshot, in order); on
priorities [5, 1, 5] both priority-5 experiments are progressed before the
priority-1 one in a single pass. -/
theorem c2_tick_priority_order :
    (∀ reg : Registry,
      (sortedExperiments reg).Perm reg
      ∧ (sortedExperiments reg).Pairwise (fun x y => prio y ≤ prio x)
      ∧ (∀ p : Int, (sortedExperiments reg).filter (fun x => prio x == p)
          = reg.filter (fun x => prio x == p))
      ∧ (processExperiments reg).events.filter isProgressEv
          = (sortedExperiments reg).map (fun q => TickEvent.progress q.1))
    ∧ (processExperiments c2reg).events.filter isProgressEv
        = [.progress "expA", .progress "expC", .progress "expB"] := by
  constructor
  · intro reg
    refine ⟨sortedExperiments_perm reg, sortedExperiments_pairwise reg,
      fun p => sortedExperiments_filter p reg, ?_⟩
    by_cases hreg : reg.isEmpty = true
    · rw [List.isEmpty_iff.mp hreg]
      rfl
    · have hreg2 : reg.isEmpty = false := by rw [← Bool.not_eq_true]; exact hreg
      unfold processExperiments
      simp only [hreg2, Bool.false_eq_true, if_false]
      rw [List.filter_append, progressEvents_map_remove, List.append_nil,
        tickLoop_events, progressEvents_map_progress]
  · decide

/-! ### Claim C4 -/

theorem isCompletes_isRaises_false {o : ProgressOutcome}
    (h1 : isCompletes o = true) (h2 : isRaises o = true) : False := by
  cases o <;> simp [isCompletes, isRaises] at h1 h2

/-- Claim C4: during one tick pass over a well-formed registry, every entry
of the sorted snapshot is progressed — the progress events cover the whole
snapshot even when some executors raise — the failed ids are exactly the
entries whose progress raised, all removal events come after every progress
event, and the registry mutation happens only after the full pass: the final
registry is the original minus precisely the completed and failed ids, with
no `KeyError`. -/
theorem c4_tick_failure_isolation (reg : Registry) (hwf : WF reg) :
    (processExperiments reg).error = none
    ∧ (processExperiments reg).events
        = (sortedExperiments reg).map (fun q => TickEvent.progress q.1)
          ++ ((((sortedExperiments reg).filter (fun q => isCompletes q.2.progress)).map Prod.fst
              ++ ((sortedExperiments reg).filter (fun q => isRaises q.2.progress)).map Prod.fst).map
              TickEvent.remove)
    ∧ (processExperiments reg).registry
        = reg.filter (fun q =>
            !((((sortedExperiments reg).filter (fun q => isCompletes q.2.progress)).map Prod.fst
               ++ ((sortedExperiments reg).filter (fun q => isRaises q.2.progress)).map
                 Prod.fst).contains q.1)) := by
  by_cases hreg : reg.isEmpty = true
  · rw [List.isEmpty_iff.mp hreg]
    exact ⟨rfl, rfl, rfl⟩
  · have hreg2 : reg.isEmpty = false := by rw [← Bool.not_eq_true]; exact hreg
    have hperm : (sortedExperiments reg).Perm reg := sortedExperiments_perm reg
    have hkeys : ((sortedExperiments reg).map Prod.fst).Nodup :=
      ((hperm.map Prod.fst).nodup_iff).mpr hwf
    have hcompnd :
        (((sortedExperiments reg).filter (fun q => isCompletes q.2.progress)).map Prod.fst).Nodup :=
      List.Nodup.sublist (List.Sublist.map _ (List.filter_sublist _)) hkeys
    have hfailnd :
        (((sortedExperiments reg).filter (fun q => isRaises q.2.progress)).map Prod.fst).Nodup :=
      List.Nodup.sublist (List.Sublist.map _ (List.filter_sublist _)) hkeys
    have hdisj :
        (((sortedExperiments reg).filter (fun q => isCompletes q.2.progress)).map Prod.fst).Disjoint
          (((sortedExperiments reg).filter (fun q => isRaises q.2.progress)).map Prod.fst) := by
      intro x hxc hxf
      obtain ⟨q1, hq1, hq1x⟩ := List.mem_map.mp hxc
      obtain ⟨q2, hq2, hq2x⟩ := List.mem_map.mp hxf
      rw [List.mem_filter] at hq1 hq2
      have heq : q1 = q2 :=
        List.inj_on_of_nodup_map hkeys hq1.1 hq2.1 (by rw [hq1x, hq2x])
      exact isCompletes_isRaises_false (heq ▸ hq1.2) hq2.2
    have hnd :
        ((((sortedExperiments reg).filter (fun q => isCompletes q.2.progress)).map Prod.fst)
          ++ (((sortedExperiments reg).filter (fun q => isRaises q.2.progress)).map Prod.fst)).Nodup :=
      List.nodup_append.mpr ⟨hcompnd, hfailnd, hdisj⟩
    have hmem : ∀ i ∈ (((sortedExperiments reg).filter (fun q => isCompletes q.2.progress)).map Prod.fst)
          ++ (((sortedExperiments reg).filter (fun q => isRaises q.2.progress)).map Prod.fst),
        containsKey reg i = true := by
      intro i hi
      rcases List.mem_append.mp hi with hic | hif
      · obtain ⟨q, hq, hqx⟩ := List.mem_map.mp hic
        rw [List.mem_filter] at hq
        rw [← hqx]
        exact containsKey_of_mem (hperm.subset hq.1)
      · obtain ⟨q, hq, hqx⟩ := List.mem_map.mp hif
        rw [List.mem_filter] at hq
        rw [← hqx]
        exact containsKey_of_mem (hperm.subset hq.1)
    unfold processExperiments
    simp only [hreg2, Bool.false_eq_true, if_false]
    rw [tickLoop_events, tickLoop_completed, tickLoop_failed,
      deleteAll_ok _ hwf hnd hmem]
    exact ⟨rfl, rfl, rfl⟩

/-- A registry for exercising C4: a completing executor, a raising executor
and a continuing executor. -/
def c4reg : Registry :=
  [("c4ok", { experiment_definition := { id := "c4ok", type := "t", priority := 3 },
              startOk := true, progress := .completes, cancelOk := true }),
   ("c4bad", { experiment_definition := { id := "c4bad", type := "t", priority := 2 },
               startOk := true, progress := .raisesError, cancelOk := true }),
   ("c4rest", { experiment_definition := { id := "c4rest", type := "t", priority := 1 },
                startOk := true, progress := .continues, cancelOk := true })]

/-- Witness for C4 at a concrete registry where one executor raises:
the failing experiment is removed together with the completed one, the
remaining experiment survives, and no error escapes the tick. -/
theorem c4_tick_failure_isolation_witness :
    (processExperiments c4reg).error = none
    ∧ (processExperiments c4reg).events
        = [.progress "c4ok", .progress "c4bad", .progress "c4rest",
           .remove "c4ok", .remove "c4bad"] := by
  have h := c4_tick_failure_isolation c4reg (by decide)
  exact ⟨h.1, by rw [h.2.1]; decide⟩

/-! ### Claims C3 and C9 (submission) -/

theorem countP_key_of_wf :
    ∀ {reg : Registry}, WF reg → ∀ k, containsKey reg k = true →
    reg.countP (fun p => p.1 == k) = 1
  | [], _, k, hc => by cases hc
  | p :: rest, hwf, k, hc => by
    rw [WF, List.map_cons, List.nodup_cons] at hwf
    rw [List.countP_cons]
    by_cases hpk : (p.1 == k) = true
    · have hz : rest.countP (fun q => q.1 == k) = 0 := by
        rw [List.countP_eq_zero]
        intro q hq hqk
        rw [beq_iff_eq] at hpk hqk
        exact hwf.1 (hpk ▸ hqk ▸ List.mem_map_of_mem Prod.fst hq)
      rw [hz, hpk]
      simp
    · have hpkf : (p.1 == k) = false := by rw [← Bool.not_eq_true]; exact hpk
      simp only [containsKey, List.any_cons, hpkf, Bool.false_or] at hc
      simp only [hpkf, Bool.false_eq_true, if_false]
      exact countP_key_of_wf hwf.2 k hc

/-- Claim C3: every failing submit propagates its error — `unknownType` when
the experiment type is not loaded, `executionError` when the executor's start
raises — and performs no partial registration: the registry is unchanged, no
register event is emitted, and an id absent before the call is absent after
it. -/
theorem c3_submit_failure_atomicity (cfgTypes : List String)
    (factory : ExperimentDefinition → ExperimentExecutor)
    (reg : Registry) (d : ExperimentDefinition) :
    (cfgTypes.contains d.type = false →
      (submitExperiment cfgTypes factory reg d).error = some .unknownType)
    ∧ (cfgTypes.contains d.type = true → containsKey reg d.id = false →
        (factory d).startOk = false →
      (submitExperiment cfgTypes factory reg d).error = some .executionError)
    ∧ ((submitExperiment cfgTypes factory reg d).error.isSome = true →
      (submitExperiment cfgTypes factory reg d).registry = reg
      ∧ (∀ i, SubmitEvent.register i ∉ (submitExperiment cfgTypes factory reg d).events)
      ∧ (containsKey reg d.id = false →
          containsKey (submitExperiment cfgTypes factory reg d).registry d.id = false)) := by
  refine ⟨?_, ?_, ?_⟩
  · intro hf
    have hf2 : ¬ d.type ∈ cfgTypes := by simpa using hf
    simp [submitExperiment, hf2]
  · intro ht hnc hns
    have ht2 : d.type ∈ cfgTypes := by simpa using ht
    simp [submitExperiment, ht2, hnc, hns]
  · intro hs
    by_cases h1 : d.type ∈ cfgTypes
    · by_cases h2 : containsKey reg d.id = true
      · exact absurd hs (by simp [submitExperiment, h1, h2])
      · have h2f : containsKey reg d.id = false := by rw [← Bool.not_eq_true]; exact h2
        by_cases h3 : (factory d).startOk = true
        · exact absurd hs (by simp [submitExperiment, h1, h2f, h3])
        · have h3f : (factory d).startOk = false := by rw [← Bool.not_eq_true]; exact h3
          refine ⟨?_, ?_, ?_⟩
          · simp [submitExperiment, h1, h2f, h3f, eraseKey_of_not_contains h2f]
          · intro i
            simp [submitExperiment, h1, h2f, h3f]
          · intro _
            simp [submitExperiment, h1, h2f, h3f, eraseKey_of_not_contains h2f]
    · refine ⟨?_, ?_, ?_⟩
      · simp [submitExperiment, h1]
      · intro i
        simp [submitExperiment, h1]
      · intro hc
        simp only [submitExperiment]
        simp [h1, hc]

/-- Factory used by the C3 witness: every executor fails to start. -/
def c3facFail (d : ExperimentDefinition) : ExperimentExecutor :=
  { experiment_definition := d, startOk := false, progress := .continues, cancelOk := true }

/-- Witness for C3: an unknown-type submit fails with `unknownType`, and a
submit whose executor start raises fails with `executionError` leaving the
registry empty. -/
theorem c3_submit_failure_atomicity_witness :
    (submitExperiment [] c3facFail [] { id := "x1", type := "u", priority := 0 }).error
      = some .unknownType
    ∧ (submitExperiment ["t"] c3facFail [] { id := "x2", type := "t", priority := 0 }).error
      = some .executionError
    ∧ (submitExperiment ["t"] c3facFail [] { id := "x2", type := "t", priority := 0 }).registry
      = [] := by
  have ha := c3_submit_failure_atomicity [] c3facFail []
    { id := "x1", type := "u", priority := 0 }
  have hb := c3_submit_failure_atomicity ["t"] c3facFail []
    { id := "x2", type := "t", priority := 0 }
  exact ⟨ha.1 (by decide), hb.2.1 (by decide) (by decide) (by decide),
    (hb.2.2 (by decide)).1⟩

/-- Claim C9: submitting an id that is already registered (with its type
loaded, as validation precedes the duplicate check) is an idempotent no-op:
no executor is created or started, the call returns without error, the
registry is unchanged, and for a well-formed registry exactly one executor
is registered under that id. -/
theorem c9_duplicate_submit_idempotent (cfgTypes : List String)
    (factory : ExperimentDefinition → ExperimentExecutor)
    (reg : Registry) (d : ExperimentDefinition)
    (htype : cfgTypes.contains d.type = true)
    (hdup : containsKey reg d.id = true) :
    (submitExperiment cfgTypes factory reg d).error = none
    ∧ (submitExperiment cfgTypes factory reg d).registry = reg
    ∧ (submitExperiment cfgTypes factory reg d).events = [.validateType d.type]
    ∧ (∀ i, SubmitEvent.createExecutor i ∉ (submitExperiment cfgTypes factory reg d).events)
    ∧ (∀ i, SubmitEvent.startExperiment i ∉ (submitExperiment cfgTypes factory reg d).events)
    ∧ (WF reg → reg.countP (fun p => p.1 == d.id) = 1) := by
  have ht2 : d.type ∈ cfgTypes := by simpa using htype
  refine ⟨?_, ?_, ?_, ?_, ?_, fun hwf => countP_key_of_wf hwf d.id hdup⟩
  · simp [submitExperiment, ht2, hdup]
  · simp [submitExperiment, ht2, hdup]
  · simp [submitExperiment, ht2, hdup]
  · intro i
    simp [submitExperiment, ht2, hdup]
  · intro i
    simp [submitExperiment, ht2, hdup]

/-- Registry holding one already-submitted experiment, for the C9 witness. -/
def c9reg : Registry :=
  [("dup", { experiment_definition := { id := "dup", type := "t", priority := 4 },
             startOk := true, progress := .continues, cancelOk := true })]

/-- Factory used by the C9 witness. -/
def c9fac (d : ExperimentDefinition) : ExperimentExecutor :=
  { experiment_definition := d, startOk := true, progress := .continues, cancelOk := true }

/-- Witness for C9: resubmitting the registered id `dup` returns without
error, leaves the registry unchanged, and exactly one executor is registered
under `dup`. -/
theorem c9_duplicate_submit_idempotent_witness :
    (submitExperiment ["t"] c9fac c9reg { id := "dup", type := "t", priority := 4 }).error = none
    ∧ (submitExperiment ["t"] c9fac c9reg { id := "dup", type := "t", priority := 4 }).registry
        = c9reg
    ∧ c9reg.countP (fun p => p.1 == "dup") = 1 := by
  have h := c9_duplicate_submit_idempotent ["t"] c9fac c9reg
    { id := "dup", type := "t", priority := 4 } (by decide) (by decide)
  exact ⟨h.1, h.2.1, h.2.2.2.2.2 (by decide)⟩

/-! ### Claims C5, C6 and C10 (cancellation pipeline) -/

theorem cancelOutcome_none_contains {reg : Registry} {i : String}
    (h : cancelOutcome reg i = none) : containsKey reg i = true := by
  unfold cancelOutcome at h
  cases hl : lookupKey reg i with
  | none => rw [hl] at h; cases h
  | some ex => exact lookupKey_some_contains hl

/-- A drain pass in which every queued id is registered and cancels cleanly:
no error escapes and the final registry is the original minus the queued
ids. -/
theorem drain_all_ok (reg : Registry) (queue arrivals : List String)
    (hall : ∀ i ∈ queue, cancelOutcome reg i = none)
    (hwf : WF reg) (hnd : queue.Nodup) :
    (processExperimentCancellations reg queue arrivals).error = none
    ∧ (processExperimentCancellations reg queue arrivals).registry
        = reg.filter (fun p => !(queue.contains p.1)) := by
  cases queue with
  | nil =>
    refine ⟨rfl, ?_⟩
    have h : List.filter (fun (p : String × ExperimentExecutor) =>
        !(List.contains [] p.1)) reg = reg :=
      List.filter_eq_self.mpr (fun a _ => rfl)
    rw [h]
    rfl
  | cons b rest =>
    have hfm : (b :: rest).filterMap (cancelOutcome reg) = [] :=
      List.filterMap_eq_nil_iff.mpr hall
    unfold processExperimentCancellations
    simp only [List.isEmpty_cons, Bool.false_eq_true, if_false, hfm, List.head?_nil]
    rw [deleteAll_ok (b :: rest) hwf hnd
      (fun i hi => cancelOutcome_none_contains (hall i hi))]
    exact ⟨rfl, rfl⟩

/-- Claim C5: a drain acts on exactly the queue snapshot taken when the call
starts — the drained ids are the queued ids, ids enqueued after the drain
begins form the queue afterwards and are drained by the next call, and an
empty queue returns immediately with the registry untouched. -/
theorem c5_drain_snapshot (reg : Registry) (queue arrivals : List String) :
    (processExperimentCancellations reg queue arrivals).drained = queue
    ∧ (processExperimentCancellations reg queue arrivals).queue = arrivals
    ∧ (queue = [] →
        processExperimentCancellations reg queue arrivals
          = { drained := [], error := none, registry := reg, queue := arrivals })
    ∧ (∀ (reg2 : Registry) (arrivals2 : List String),
        (processExperimentCancellations reg2 arrivals arrivals2).drained = arrivals) := by
  have hdrain : ∀ (r : Registry) (q a : List String),
      (processExperimentCancellations r q a).drained = q := by
    intro r q a
    unfold processExperimentCancellations
    by_cases hq : q.isEmpty = true
    · simp only [hq, if_true]
      exact (List.isEmpty_iff.mp hq).symm
    · have hq2 : q.isEmpty = false := by rw [← Bool.not_eq_true]; exact hq
      simp only [hq2, Bool.false_eq_true, if_false]
      cases (q.filterMap (cancelOutcome r)).head? <;> rfl
  have hqueue : (processExperimentCancellations reg queue arrivals).queue = arrivals := by
    unfold processExperimentCancellations
    by_cases hq : queue.isEmpty = true
    · simp only [hq, if_true]
    · have hq2 : queue.isEmpty = false := by rw [← Bool.not_eq_true]; exact hq
      simp only [hq2, Bool.false_eq_true, if_false]
      cases (queue.filterMap (cancelOutcome reg)).head? <;> rfl
  refine ⟨hdrain reg queue arrivals, hqueue, ?_, fun reg2 arrivals2 => hdrain reg2 arrivals arrivals2⟩
  intro hq
  rw [hq]
  rfl

/-- Witness for C5: on an empty queue the call returns immediately with the
registry untouched, and a second call drains exactly the ids that arrived
after the first drain began. -/
theorem c5_drain_snapshot_witness :
    processExperimentCancellations [] [] ["late1", "late2"]
      = { drained := [], error := none, registry := [], queue := ["late1", "late2"] }
    ∧ (processExperimentCancellations [] ["late1", "late2"] []).drained
      = ["late1", "late2"] := by
  have h := c5_drain_snapshot [] [] ["late1", "late2"]
  exact ⟨h.2.2.1 rfl, h.2.2.2 [] []⟩

/-- Executor whose cancellation succeeds, for the C6 counterexample. -/
def c6execOk : ExperimentExecutor :=
  { experiment_definition := { id := "okExp", type := "t", priority := 1 },
    startOk := true, progress := .continues, cancelOk := true }

/-- Executor whose cancellation raises, for the C6 counterexample. -/
def c6execBad : ExperimentExecutor :=
  { experiment_definition := { id := "badExp", type := "t", priority := 1 },
    startOk := true, progress := .continues, cancelOk := false }

/-- Registry with one cleanly-cancelling and one failing executor. -/
def c6reg : Registry := [("okExp", c6execOk), ("badExp", c6execBad)]

/-- Counterexample to C6 as stated: on a mixed pass (`okExp` cancels
successfully, `badExp` raises) the `asyncio.gather` failure propagates before
any registry mutation, so `okExp` — whose cancellation completed
successfully — is NOT removed from the registry. -/
theorem c6_counterexample :
    cancelOutcome c6reg "okExp" = none
    ∧ (processExperimentCancellations c6reg ["okExp", "badExp"] []).error
        = some .executionError
    ∧ (processExperimentCancellations c6reg ["okExp", "badExp"] []).registry = c6reg
    ∧ containsKey
        (processExperimentCancellations c6reg ["okExp", "badExp"] []).registry
        "okExp" = true := by
  refine ⟨rfl, rfl, rfl, rfl⟩

/-- Claim C6 (amended): on a drain pass where every cancellation succeeds,
every drained id is removed from the registry; if any cancellation fails, the
failure propagates as an error (it is reported, not swallowed) and no drained
id — including the successfully cancelled ones — is removed from the
registry, so no id is silently dropped while still executing. -/
theorem c6_cancel_failure_policy (reg : Registry) (queue arrivals : List String)
    (hne : queue ≠ []) :
    ((∀ i ∈ queue, cancelOutcome reg i = none) → WF reg → queue.Nodup →
      (processExperimentCancellations reg queue arrivals).error = none
      ∧ (processExperimentCancellations reg queue arrivals).registry
          = reg.filter (fun p => !(queue.contains p.1)))
    ∧ ((∃ i ∈ queue, ¬ cancelOutcome reg i = none) →
      (processExperimentCancellations reg queue arrivals).error.isSome = true
      ∧ (processExperimentCancellations reg queue arrivals).registry = reg) := by
  constructor
  · intro hall hwf hnd
    exact drain_all_ok reg queue arrivals hall hwf hnd
  · intro hex
    obtain ⟨i, hi, hine⟩ := hex
    obtain ⟨e, he⟩ := Option.ne_none_iff_exists'.mp hine
    have hmem : e ∈ queue.filterMap (cancelOutcome reg) :=
      List.mem_filterMap.mpr ⟨i, hi, he⟩
    have hfm : queue.filterMap (cancelOutcome reg) ≠ [] :=
      List.ne_nil_of_mem hmem
    have hq2 : queue.isEmpty = false := by
      cases queue with
      | nil => exact absurd rfl hne
      | cons b rest => rfl
    unfold processExperimentCancellations
    simp only [hq2, Bool.false_eq_true, if_false]
    cases hh : (queue.filterMap (cancelOutcome reg)).head? with
    | none =>
      rw [List.head?_eq_none_iff] at hh
      exact absurd hh hfm
    | some e2 => exact ⟨rfl, rfl⟩

/-- Registry for the C6 witness: a single cleanly-cancelling executor. -/
def c6reg2 : Registry :=
  [("okExp2", { experiment_definition := { id := "okExp2", type := "t", priority := 1 },
                startOk := true, progress := .continues, cancelOk := true })]

/-- Witness for C6 (amended): an all-success pass removes the drained id,
and a mixed pass propagates the failure while leaving the registry
unchanged. -/
theorem c6_cancel_failure_policy_witness :
    ((processExperimentCancellations c6reg2 ["okExp2"] []).error = none
      ∧ (processExperimentCancellations c6reg2 ["okExp2"] []).registry = [])
    ∧ ((processExperimentCancellations c6reg ["okExp", "badExp"] []).error.isSome = true
      ∧ (processExperimentCancellations c6reg ["okExp", "badExp"] []).registry = c6reg) := by
  have h1 := (c6_cancel_failure_policy c6reg2 ["okExp2"] [] (by decide)).1
    (by decide) (by decide) (by decide)
  have h2 := (c6_cancel_failure_policy c6reg ["okExp", "badExp"] [] (by decide)).2
    ⟨"badExp", by decide, by decide⟩
  exact ⟨⟨h1.1, by rw [h1.2]; rfl⟩, h2⟩

/-- Claim C10: `cancel_experiment` enqueues unconditionally whenever the id
is registered (so the same id can be queued twice between drains); a drain
whose drained ids contain a duplicate deletes the id at its first occurrence
and raises `KeyError` at the second, leaving the registry missing the id; a
drain is safe (no `KeyError`) when the drained ids are pairwise distinct,
registered, and cancel cleanly. -/
theorem c10_duplicate_cancellation_unsafe (reg : Registry) (a : String)
    (queue : List String) :
    (containsKey reg a = true →
      cancelExperiment reg queue a = queue ++ [a]
      ∧ cancelExperiment reg (cancelExperiment reg queue a) a = queue ++ [a, a])
    ∧ (WF reg → cancelOutcome reg a = none →
      (processExperimentCancellations reg [a, a] []).error = some (.keyError a)
      ∧ (processExperimentCancellations reg [a, a] []).registry = eraseKey reg a)
    ∧ (∀ q : List String, WF reg → q.Nodup → (∀ i ∈ q, cancelOutcome reg i = none) →
      (processExperimentCancellations reg q []).error = none) := by
  refine ⟨?_, ?_, ?_⟩
  · intro hc
    constructor
    · simp [cancelExperiment, hc]
    · simp [cancelExperiment, hc]
  · intro hwf hca
    have hc : containsKey reg a = true := cancelOutcome_none_contains hca
    have hce : containsKey (eraseKey reg a) a = false := containsKey_eraseKey_self hwf a
    have hfm : ([a, a] : List String).filterMap (cancelOutcome reg) = [] := by
      simp [List.filterMap_cons, hca]
    unfold processExperimentCancellations
    simp only [List.isEmpty_cons, Bool.false_eq_true, if_false, hfm, List.head?_nil]
    refine ⟨?_, ?_⟩ <;> simp [deleteAll, hc, hce]
  · intro q hwf hnd hall
    exact (drain_all_ok reg q [] hall hwf hnd).1

/-- Registry for the C10 witness. -/
def c10reg : Registry :=
  [("dupc", { experiment_definition := { id := "dupc", type := "t", priority := 2 },
              startOk := true, progress := .continues, cancelOk := true }),
   ("live", { experiment_definition := { id := "live", type := "t", priority := 1 },
              startOk := true, progress := .continues, cancelOk := true })]

/-- Witness for C10: enqueuing `dupc` twice queues it twice; draining
`[dupc, dupc]` raises `KeyError dupc`; draining the distinct registered id
`live` raises nothing. -/
theorem c10_duplicate_cancellation_unsafe_witness :
    cancelExperiment c10reg [] "dupc" = ["dupc"]
    ∧ cancelExperiment c10reg (cancelExperiment c10reg [] "dupc") "dupc" = ["dupc", "dupc"]
    ∧ (processExperimentCancellations c10reg ["dupc", "dupc"] []).error
        = some (.keyError "dupc")
    ∧ (processExperimentCancellations c10reg ["live"] []).error = none := by
  have h := c10_duplicate_cancellation_unsafe c10reg "dupc" []
  refine ⟨(h.1 (by decide)).1, by simpa using (h.1 (by decide)).2,
    (h.2.1 (by decide) (by decide)).1,
    h.2.2 ["live"] (by decide) (by decide) (by decide)⟩

/-! ### Claims C1 and C7 (`unload_labs`) -/

/-- The property asserted by C1: every evaluation of the lab usage predicate
during `unload_labs` happens with the Reconfiguration Lock held. -/
def checksUnderLock (evs : List LockEvent) : Prop :=
  ∀ l b, LockEvent.checkUsage l b ∈ evs → b = true

/-- True when every usage-check event in the trace ran without the lock. -/
def checkEventsUnlocked (evs : List LockEvent) : Bool :=
  evs.all fun ev =>
    match ev with
    | .checkUsage _ b => !b
    | _ => true

/-- True when every mutation event in the trace ran with the lock held. -/
def mutationEventsLocked (evs : List LockEvent) : Bool :=
  evs.all fun ev =>
    match ev with
    | .checkUsage _ _ => true
    | .configUnload b => b
    | .devicesUpdate b => b
    | .containersUpdate b => b

theorem runChecks_flags (cfg : ExpConfigs) (env : DbEnv) :
    ∀ labs, checkEventsUnlocked (runChecks cfg env labs).1 = true
      ∧ mutationEventsLocked (runChecks cfg env labs).1 = true
  | [] => ⟨rfl, rfl⟩
  | l :: rest => by
    unfold runChecks
    cases hc : checkLabUsage cfg env l with
    | some e => exact ⟨rfl, rfl⟩
    | none =>
      have ih := runChecks_flags cfg env rest
      simp only [checkEventsUnlocked, mutationEventsLocked, List.all_cons] at ih ⊢
      exact ⟨ih.1, ih.2⟩

/-- Counterexample to C1 as stated: on a concrete `unload_labs` call the
first trace event is a usage check performed with the Reconfiguration Lock
NOT held — the check runs before `async with self._loading_lock` is entered,
so check and mutation are not one critical section. -/
theorem c1_counterexample :
    ¬ checksUnderLock
      (unloadLabs [] { experiments := [], tasks := [] }
        { loadedLabs := ["lab1"], deviceLabs := ["lab1"], containerLabs := ["lab1"] }
        ["lab1"]).events := by
  intro h
  exact Bool.false_ne_true (h "lab1" false (by decide))

/-- Claim C1 (amended): in `unload_labs` every lab usage check is evaluated
before the Reconfiguration Lock is acquired (every check event carries
`lockHeld = false`), and only the configuration/device/container mutations
run inside the lock (every mutation event carries `lockHeld = true`) — the
check-then-mutate sequence is not a single critical section, matching the
gap flagged in §9 of the spec. -/
theorem c1_check_outside_lock (cfg : ExpConfigs) (env : DbEnv) (st : LabState)
    (labs : List String) :
    checkEventsUnlocked (unloadLabs cfg env st labs).events = true
    ∧ mutationEventsLocked (unloadLabs cfg env st labs).events = true := by
  unfold unloadLabs
  have hrc := runChecks_flags cfg env labs
  cases hr : (runChecks cfg env labs).2 with
  | some e =>
    simp only [hr]
    exact hrc
  | none =>
    simp only [hr]
    simp only [checkEventsUnlocked, mutationEventsLocked, List.all_append] at hrc ⊢
    exact ⟨by rw [hrc.1]; rfl, by rw [hrc.2]; rfl⟩

theorem isEmpty_false_of_mem {α : Type} {l : List α} {x : α} (h : x ∈ l) :
    l.isEmpty = false := by
  cases l with
  | nil => cases h
  | cons a as => rfl

theorem checkLabUsage_cases (cfg : ExpConfigs) (env : DbEnv) (l : String) :
    checkLabUsage cfg env l = none ∨ checkLabUsage cfg env l = some .resourceInUse := by
  unfold checkLabUsage
  split
  · exact Or.inr rfl
  · split
    · exact Or.inr rfl
    · exact Or.inl rfl

theorem runChecks_error_cases (cfg : ExpConfigs) (env : DbEnv) :
    ∀ labs, (runChecks cfg env labs).2 = none
      ∨ (runChecks cfg env labs).2 = some .resourceInUse
  | [] => Or.inl rfl
  | l :: rest => by
    unfold runChecks
    cases hc : checkLabUsage cfg env l with
    | some e =>
      rcases checkLabUsage_cases cfg env l with h | h
      · rw [hc] at h; cases h
      · rw [hc] at h
        exact Or.inr (by rw [← h])
    | none => exact runChecks_error_cases cfg env rest

theorem runChecks_fails {cfg : ExpConfigs} {env : DbEnv} {lab : String}
    (hck : ¬ checkLabUsage cfg env lab = none) :
    ∀ {labs : List String}, lab ∈ labs → ¬ (runChecks cfg env labs).2 = none := by
  intro labs
  induction labs with
  | nil => intro h; cases h
  | cons l rest ih =>
    intro hmem
    unfold runChecks
    cases hc : checkLabUsage cfg env l with
    | some e => intro h; cases h
    | none =>
      rcases List.mem_cons.mp hmem with heq | hrest
      · rw [← heq] at hc
        exact absurd hc hck
      · exact ih hrest

theorem runChecks_in_use {cfg : ExpConfigs} {env : DbEnv} {lab : String}
    {labs : List String} (hmem : lab ∈ labs)
    (hck : ¬ checkLabUsage cfg env lab = none) :
    (runChecks cfg env labs).2 = some .resourceInUse := by
  rcases runChecks_error_cases cfg env labs with h | h
  · exact absurd h (runChecks_fails hck hmem)
  · exact h

/-- Claim C7: whenever the lab usage predicate flags some lab of the call as
in use — a RUNNING experiment whose configured lab set includes the lab, or
an active (RUNNING/CREATED) standalone task with a device in the lab —
`unload_labs` fails with the resource-in-use error and leaves the loaded-lab
flags and the device/container manager state unmodified. -/
theorem c7_unload_labs_in_use (cfg : ExpConfigs) (env : DbEnv) (st : LabState)
    (labs : List String) (lab : String) (hmem : lab ∈ labs)
    (huse :
      (∃ e ∈ env.experiments, e.status = ExperimentStatus.running
        ∧ lab ∈ labsOfType cfg e.type)
      ∨ (∃ t ∈ env.tasks,
          (t.status = TaskStatus.running ∨ t.status = TaskStatus.created)
          ∧ isStandalone t = true ∧ ∃ d ∈ t.devices, d.lab = lab)) :
    (unloadLabs cfg env st labs).error = some .resourceInUse
    ∧ (unloadLabs cfg env st labs).state = st := by
  have hck : ¬ checkLabUsage cfg env lab = none := by
    unfold checkLabUsage
    rcases huse with ⟨e, he, hst, hlab⟩ | ⟨t, ht, hst, hsa, d, hd, hdl⟩
    · have hee : e ∈ experimentsUsingLab cfg env lab := by
        unfold experimentsUsingLab
        rw [List.mem_filter, List.mem_filter]
        refine ⟨⟨he, by rw [beq_iff_eq]; exact hst⟩, by simpa using hlab⟩
      have hne : (experimentsUsingLab cfg env lab).isEmpty = false :=
        isEmpty_false_of_mem hee
      simp only [hne, Bool.not_false, if_true]
      intro h
      cases h
    · have hte : t ∈ tasksUsingDevices env lab none := by
        unfold tasksUsingDevices
        rw [List.mem_filter]
        constructor
        · rcases hst with hr | hc
          · exact List.mem_append_left _
              (List.mem_filter.mpr ⟨ht, by rw [beq_iff_eq]; exact hr⟩)
          · exact List.mem_append_right _
              (List.mem_filter.mpr ⟨ht, by rw [beq_iff_eq]; exact hc⟩)
        · rw [hsa, Bool.true_and, List.any_eq_true]
          exact ⟨d, hd, by simp [hdl]⟩
      have hne2 : (tasksUsingDevices env lab none).isEmpty = false :=
        isEmpty_false_of_mem hte
      by_cases h1 : (experimentsUsingLab cfg env lab).isEmpty = true
      · simp only [h1, Bool.not_true, Bool.false_eq_true, if_false, hne2,
          Bool.not_false, if_true]
        intro h
        cases h
      · have h1f : (experimentsUsingLab cfg env lab).isEmpty = false := by
          rw [← Bool.not_eq_true]; exact h1
        simp only [h1f, Bool.not_false, if_true]
        intro h
        cases h
  have hrc : (runChecks cfg env labs).2 = some .resourceInUse :=
    runChecks_in_use hmem hck
  unfold unloadLabs
  exact ⟨by simp [hrc], by simp [hrc]⟩

/-- Configuration for the C7 witness: experiment type `expT` depends on
`labU`. -/
def c7cfg : ExpConfigs := [("expT", ["labU"])]

/-- DbEnv for the C7 witness: one RUNNING experiment of type `expT`. -/
def c7env : DbEnv :=
  { experiments := [{ id := "e1", type := "expT", status := .running }], tasks := [] }

/-- DbEnv for the second C7 witness case: one CREATED standalone task with a
device in `labU`. -/
def c7envTask : DbEnv :=
  { experiments := [],
    tasks := [{ id := "t1", type := "tt", status := .created,
                experiment_id := some "on_demand",
                devices := [{ lab := "labU", id := "d1" }] }] }

/-- Lab state for the C7 witness. -/
def c7st : LabState :=
  { loadedLabs := ["labU"], deviceLabs := ["labU"], containerLabs := ["labU"] }

/-- Witness for C7: with a RUNNING experiment using `labU` (and, separately,
with an active standalone task using a `labU` device), unloading `labU`
errors with resource-in-use and the state is unchanged. -/
theorem c7_unload_labs_in_use_witness :
    ((unloadLabs c7cfg c7env c7st ["labU"]).error = some .resourceInUse
      ∧ (unloadLabs c7cfg c7env c7st ["labU"]).state = c7st)
    ∧ ((unloadLabs c7cfg c7envTask c7st ["labU"]).error = some .resourceInUse
      ∧ (unloadLabs c7cfg c7envTask c7st ["labU"]).state = c7st) := by
  have h1 := c7_unload_labs_in_use c7cfg c7env c7st ["labU"] "labU" (by decide)
    (Or.inl ⟨{ id := "e1", type := "expT", status := .running }, by decide, rfl, by decide⟩)
  have h2 := c7_unload_labs_in_use c7cfg c7envTask c7st ["labU"] "labU" (by decide)
    (Or.inr ⟨{ id := "t1", type := "tt", status := .created,
               experiment_id := some "on_demand",
               devices := [{ lab := "labU", id := "d1" }] },
      by decide, Or.inr rfl, by decide,
      { lab := "labU", id := "d1" }, by decide, rfl⟩)
  exact ⟨h1, h2⟩

/-! ### Claim C8 (`reload_labs`) -/

/-- Recognizer for plugin-reload events. -/
def isPluginEv : ReloadEvent → Bool
  | .pluginReload _ => true
  | _ => false

theorem reloadPlugins_error_cases (pluginOk : String → Bool) :
    ∀ dts, (reloadPlugins pluginOk dts).2 = none
      ∨ (reloadPlugins pluginOk dts).2 = some .pluginReloadError
  | [] => Or.inl rfl
  | dt :: rest => by
    unfold reloadPlugins
    by_cases h : pluginOk dt = true
    · simp only [h, if_true]
      exact reloadPlugins_error_cases pluginOk rest
    · have hf : pluginOk dt = false := by rw [← Bool.not_eq_true]; exact h
      simp [hf]

theorem reloadPlugins_none_events (pluginOk : String → Bool) :
    ∀ dts, (reloadPlugins pluginOk dts).2 = none →
      (reloadPlugins pluginOk dts).1 = dts.map ReloadEvent.pluginReload
  | [], _ => rfl
  | dt :: rest, h => by
    unfold reloadPlugins at h ⊢
    by_cases hok : pluginOk dt = true
    · simp only [hok, if_true] at h ⊢
      rw [reloadPlugins_none_events pluginOk rest h, List.map_cons]
    · have hf : pluginOk dt = false := by rw [← Bool.not_eq_true]; exact hok
      simp only [hf, Bool.false_eq_true, if_false] at h
      cases h

theorem reloadPlugins_fail (pluginOk : String → Bool) :
    ∀ {dts}, (∃ dt ∈ dts, pluginOk dt = false) →
      ¬ (reloadPlugins pluginOk dts).2 = none := by
  intro dts
  induction dts with
  | nil => intro h; rcases h with ⟨dt, hdt, _⟩; cases hdt
  | cons d rest ih =>
    intro h
    unfold reloadPlugins
    by_cases hok : pluginOk d = true
    · simp only [hok, if_true]
      rcases h with ⟨dt, hdt, hdf⟩
      rcases List.mem_cons.mp hdt with heq | hrest
      · rw [← heq] at hok
        rw [hok] at hdf
        cases hdf
      · exact ih ⟨dt, hrest, hdf⟩
    · have hf : pluginOk d = false := by rw [← Bool.not_eq_true]; exact hok
      simp only [hf, Bool.false_eq_true, if_false]
      intro hh
      cases hh

theorem reloadPlugins_events_plugin (pluginOk : String → Bool) :
    ∀ dts, (reloadPlugins pluginOk dts).1.all isPluginEv = true
  | [] => rfl
  | dt :: rest => by
    unfold reloadPlugins
    by_cases hok : pluginOk dt = true
    · simp only [hok, if_true, List.all_cons]
      rw [reloadPlugins_events_plugin pluginOk rest]
      rfl
    · have hf : pluginOk dt = false := by rw [← Bool.not_eq_true]; exact hok
      simp only [hf, Bool.false_eq_true, if_false]
      rfl

theorem pluginPhase_error_cases (pkg : String → List String) (pluginOk : String → Bool) :
    ∀ labs, (pluginPhase pkg pluginOk labs).2 = none
      ∨ (pluginPhase pkg pluginOk labs).2 = some .pluginReloadError
  | [] => Or.inl rfl
  | lab :: rest => by
    unfold pluginPhase
    cases hr : (reloadPlugins pluginOk (pkg lab).dedup).2 with
    | some e =>
      rcases reloadPlugins_error_cases pluginOk (pkg lab).dedup with h | h
      · rw [hr] at h; cases h
      · rw [hr] at h
        exact Or.inr h
    | none => exact pluginPhase_error_cases pkg pluginOk rest

theorem pluginPhase_fail (pkg : String → List String) (pluginOk : String → Bool) :
    ∀ {labs}, (∃ lab ∈ labs, ∃ dt ∈ (pkg lab).dedup, pluginOk dt = false) →
      ¬ (pluginPhase pkg pluginOk labs).2 = none := by
  intro labs
  induction labs with
  | nil => intro h; rcases h with ⟨lab, hlab, _⟩; cases hlab
  | cons l rest ih =>
    intro h
    unfold pluginPhase
    cases hr : (reloadPlugins pluginOk (pkg l).dedup).2 with
    | some e => intro hh; cases hh
    | none =>
      rcases h with ⟨lab, hlab, hdt⟩
      rcases List.mem_cons.mp hlab with heq | hrest
      · rw [← heq] at hr
        exact absurd hr (reloadPlugins_fail pluginOk hdt)
      · exact ih ⟨lab, hrest, hdt⟩

theorem pluginPhase_events_plugin (pkg : String → List String) (pluginOk : String → Bool) :
    ∀ labs, (pluginPhase pkg pluginOk labs).1.all isPluginEv = true
  | [] => rfl
  | lab :: rest => by
    unfold pluginPhase
    cases hr : (reloadPlugins pluginOk (pkg lab).dedup).2 with
    | some e =>
      have h := reloadPlugins_events_plugin pluginOk (pkg lab).dedup
      exact h
    | none =>
      have h1 := reloadPlugins_events_plugin pluginOk (pkg lab).dedup
      have h2 := pluginPhase_events_plugin pkg pluginOk rest
      simp only [List.all_append]
      rw [h1, h2]
      rfl

theorem pluginPhase_none_events (pkg : String → List String) (pluginOk : String → Bool) :
    ∀ labs, (pluginPhase pkg pluginOk labs).2 = none →
      (pluginPhase pkg pluginOk labs).1
        = labs.flatMap (fun l => ((pkg l).dedup).map ReloadEvent.pluginReload)
  | [], _ => rfl
  | lab :: rest, h => by
    unfold pluginPhase at h ⊢
    cases hr : (reloadPlugins pluginOk (pkg lab).dedup).2 with
    | some e =>
      rw [hr] at h
      cases h
    | none =>
      rw [hr] at h
      rw [List.flatMap_cons, ← reloadPlugins_none_events pluginOk _ hr,
        ← pluginPhase_none_events pkg pluginOk rest h]

theorem runChecksR_error_cases (cfg : ExpConfigs) (env : DbEnv) :
    ∀ labs, (runChecksR cfg env labs).2 = none
      ∨ (runChecksR cfg env labs).2 = some .resourceInUse
  | [] => Or.inl rfl
  | l :: rest => by
    unfold runChecksR
    cases hc : checkLabUsage cfg env l with
    | some e =>
      rcases checkLabUsage_cases cfg env l with h | h
      · rw [hc] at h; cases h
      · rw [hc] at h
        exact Or.inr (by rw [← h])
    | none => exact runChecksR_error_cases cfg env rest

theorem runChecksR_none_events (cfg : ExpConfigs) (env : DbEnv) :
    ∀ labs, (runChecksR cfg env labs).2 = none →
      (runChecksR cfg env labs).1 = labs.map ReloadEvent.checkUsage
  | [], _ => rfl
  | l :: rest, h => by
    unfold runChecksR at h ⊢
    cases hc : checkLabUsage cfg env l with
    | some e => rw [hc] at h; cases h
    | none =>
      rw [hc] at h
      rw [List.map_cons, ← runChecksR_none_events cfg env rest h]

/-- Claim C8: `reload_labs` (1) fails fast on a plugin reload failure — when
some device type of some lab fails to hot-swap, the call errors with
`pluginReloadError`, the configuration is untouched and the trace holds only
plugin-reload events, before any lab/device/container/experiment mutation;
(2) on success the trace is exactly: all plugin reloads, then the usage
check per lab, then unload mutations, then load mutations, then the reload
of the dependent experiment types computed from the configuration state
BEFORE any unload (`getExperimentsForLabs cfg labTypes` over the initial
`cfg`, whatever the configuration-manager operations do); (3) every
experiment type whose configured lab set meets the reloaded labs — in
particular one depending solely on a reloaded lab — is in that dependent
set, hence reloaded by the end of the call. -/
theorem c8_reload_labs (ops : ConfigOps) (pkg : String → List String)
    (pluginOk : String → Bool) (env : DbEnv) (cfg : ExpConfigs)
    (labTypes : List String) :
    ((∃ lab ∈ labTypes, ∃ dt ∈ (pkg lab).dedup, pluginOk dt = false) →
      (reloadLabs ops pkg pluginOk env cfg labTypes).error = some .pluginReloadError
      ∧ (reloadLabs ops pkg pluginOk env cfg labTypes).experiments = cfg
      ∧ (reloadLabs ops pkg pluginOk env cfg labTypes).events.all isPluginEv = true)
    ∧ ((reloadLabs ops pkg pluginOk env cfg labTypes).error = none →
      (reloadLabs ops pkg pluginOk env cfg labTypes).events
        = labTypes.flatMap (fun l => ((pkg l).dedup).map ReloadEvent.pluginReload)
          ++ labTypes.map ReloadEvent.checkUsage
          ++ [.configUnloadLabs, .devicesUnload, .containersUnload,
              .configLoadLabs, .devicesLoad, .containersLoad]
          ++ (if (getExperimentsForLabs cfg labTypes).isEmpty then []
              else [ReloadEvent.configLoadExperiments (getExperimentsForLabs cfg labTypes)]))
    ∧ (∀ t labs2, (t, labs2) ∈ cfg → (∃ l ∈ labs2, l ∈ labTypes) →
        t ∈ getExperimentsForLabs cfg labTypes) := by
  refine ⟨?_, ?_, ?_⟩
  · intro hfail
    cases hp : (pluginPhase pkg pluginOk labTypes).2 with
    | none => exact absurd hp (pluginPhase_fail pkg pluginOk hfail)
    | some e =>
      have he : e = .pluginReloadError := by
        rcases pluginPhase_error_cases pkg pluginOk labTypes with h | h
        · rw [hp] at h; cases h
        · rw [hp] at h
          exact Option.some_injective _ h
      unfold reloadLabs
      refine ⟨?_, ?_, ?_⟩
      · simp [hp, he]
      · simp [hp]
      · simp only [hp]
        exact pluginPhase_events_plugin pkg pluginOk labTypes
  · intro hok
    cases hp : (pluginPhase pkg pluginOk labTypes).2 with
    | some e =>
      unfold reloadLabs at hok
      simp only [hp] at hok
      cases hok
    | none =>
      cases hc : (runChecksR cfg env labTypes).2 with
      | some e =>
        unfold reloadLabs at hok
        simp only [hp, hc] at hok
        cases hok
      | none =>
        unfold reloadLabs
        simp only [hp, hc]
        rw [pluginPhase_none_events pkg pluginOk labTypes hp,
          runChecksR_none_events cfg env labTypes hc]
        unfold loadExperimentsStep
        by_cases hd : (getExperimentsForLabs cfg labTypes).isEmpty = true
        · simp [hd]
        · have hdf : (getExperimentsForLabs cfg labTypes).isEmpty = false := by
            rw [← Bool.not_eq_true]; exact hd
          simp [hdf]
  · intro t labs2 hmem hex
    unfold getExperimentsForLabs
    rw [List.mem_map]
    refine ⟨(t, labs2), List.mem_filter.mpr ⟨hmem, ?_⟩, rfl⟩
    rw [List.any_eq_true]
    obtain ⟨l, hl, hlt⟩ := hex
    exact ⟨l, hlt, by simpa using hl⟩

/-- Configuration ops for the C8 witness (concrete but arbitrary behaviour:
unloading clears the experiment map). -/
def c8ops : ConfigOps :=
  { unloadLabsCfg := fun _ _ => [],
    loadLabsCfg := fun c _ => c,
    loadExperimentsCfg := fun c _ => c }

/-- Experiment configuration for the C8 witness: `expZ` depends solely on
`labZ`. -/
def c8cfg : ExpConfigs := [("expZ", ["labZ"])]

/-- Witness for C8: with a failing plugin the call aborts with
`pluginReloadError` and an untouched configuration; with all plugins healthy
the full trace runs and ends by reloading `expZ`, the experiment type that
depends solely on the reloaded lab — even though the modelled unload
operation erased the whole experiment map. -/
theorem c8_reload_labs_witness :
    ((reloadLabs c8ops (fun _ => ["dtA"]) (fun _ => false)
        { experiments := [], tasks := [] } c8cfg ["labZ"]).error
      = some .pluginReloadError
    ∧ (reloadLabs c8ops (fun _ => ["dtA"]) (fun _ => false)
        { experiments := [], tasks := [] } c8cfg ["labZ"]).experiments = c8cfg)
    ∧ (reloadLabs c8ops (fun _ => ["dtA"]) (fun _ => true)
        { experiments := [], tasks := [] } c8cfg ["labZ"]).events
      = [.pluginReload "dtA", .checkUsage "labZ",
         .configUnloadLabs, .devicesUnload, .containersUnload,
         .configLoadLabs, .devicesLoad, .containersLoad,
         .configLoadExperiments ["expZ"]]
    ∧ "expZ" ∈ getExperimentsForLabs c8cfg ["labZ"] := by
  have h1 := (c8_reload_labs c8ops (fun _ => ["dtA"]) (fun _ => false)
    { experiments := [], tasks := [] } c8cfg ["labZ"]).1
    ⟨"labZ", by decide, "dtA", by decide, rfl⟩
  have h2 := (c8_reload_labs c8ops (fun _ => ["dtA"]) (fun _ => true)
    { experiments := [], tasks := [] } c8cfg ["labZ"]).2.1 (by decide)
  have h3 := (c8_reload_labs c8ops (fun _ => ["dtA"]) (fun _ => true)
    { experiments := [], tasks := [] } c8cfg ["labZ"]).2.2 "expZ" ["labZ"]
    (by decide) ⟨"labZ", by decide, by decide⟩
  exact ⟨⟨h1.1, h1.2.1⟩, by rw [h2]; decide, h3⟩

end Eos
